import Mathlib

/-!
Verification of the RaspberryPi emulator frontend core against its
specification.  The Rust sources (config.rs, scan.rs, emu.rs, ui.rs,
main.rs) are shallowly embedded: hash maps become association lists,
the shared child-process slot becomes a `Bool` ("non-empty"), file-system
and process outcomes become explicit data, and every embedded function is
an executable Lean definition mirroring the corresponding Rust function.
-/

/-- Launch template, from `config.rs` (`CmdTemplate`): program name,
argument list, optional recognized extensions, optional visible
extensions. -/
structure CmdTemplate where
  program : String
  args : List String
  extensions : Option (List String)
  visible_extensions : Option (List String)
deriving DecidableEq, Repr

/-- Configuration document, from `config.rs` (`ConfigFile`).  The Rust
`HashMap`s are modelled as association lists with unique keys. -/
structure ConfigFile where
  default : Option CmdTemplate
  systems : Option (List (String × CmdTemplate))
  show_empty_systems : Option Bool
  controller_map : Option (List (String × String))
  default_roms_path : Option String
  font_path : Option String
deriving DecidableEq, Repr

/-- The built-in in-memory default configuration assembled at the top of
`load_config` in `config.rs`. -/
def defaultConfig : ConfigFile :=
  { default := some { program := "mgba-qt", args := ["{rom}"],
                      extensions := none, visible_extensions := none }
    systems := none
    show_empty_systems := some false
    controller_map := none
    default_roms_path := none
    font_path := none }

/-- Field-by-field merge of a parsed document into the in-memory
defaults, from the `if parsed.x.is_some() { cfg.x = parsed.x }` block of
`load_config` in `config.rs`. -/
def mergeConfig (cfg parsed : ConfigFile) : ConfigFile :=
  { default := match parsed.default with
      | some v => some v
      | none => cfg.default
    systems := match parsed.systems with
      | some v => some v
      | none => cfg.systems
    show_empty_systems := match parsed.show_empty_systems with
      | some v => some v
      | none => cfg.show_empty_systems
    controller_map := match parsed.controller_map with
      | some v => some v
      | none => cfg.controller_map
    default_roms_path := match parsed.default_roms_path with
      | some v => some v
      | none => cfg.default_roms_path
    font_path := match parsed.font_path with
      | some v => some v
      | none => cfg.font_path }

/-- Outcome of the file-system interaction inside `load_config`: no
config path could be determined, the file could not be read, it could
not be parsed, or it parsed to a document. -/
inductive FsOutcome
  | noPath
  | unreadable
  | unparsable
  | parsed (doc : ConfigFile)
deriving DecidableEq

/-- `load_config` from `config.rs`, as a function of the file-system
outcome: all failure paths keep the in-memory defaults, a parsed
document is merged field by field. -/
def load_config : FsOutcome → ConfigFile
  | .noPath => defaultConfig
  | .unreadable => defaultConfig
  | .unparsable => defaultConfig
  | .parsed doc => mergeConfig defaultConfig doc

/-- Argument-list construction from `spawn_emulator_template`
(`emu.rs` lines 11-19): each template argument equal to the literal
token `"{rom}"` is replaced by the ROM path, all others are pushed
unchanged. -/
def spawn_args (args : List String) (rom : String) : List String :=
  args.map (fun a => if a = "{rom}" then rom else a)

/-- Substring substitution of the placeholder token, following the
claim's words ("an argument containing the token as a substring also
has it substituted"); used only to compare against `spawn_args`. -/
def replaceTok (rom : List Char) : List Char → List Char
  | '{' :: 'r' :: 'o' :: 'm' :: '}' :: rest => rom ++ replaceTok rom rest
  | c :: rest => c :: replaceTok rom rest
  | [] => []

/-- Spec-side argument construction per the claim's wording: every
occurrence of `"{rom}"`, also inside a larger argument, is replaced. -/
def spawn_args_spec (args : List String) (rom : String) : List String :=
  args.map (fun a => String.mk (replaceTok rom.data a.data))

/-- Model of Rust `str::to_lowercase` (character-wise lowercasing, as
used by the scanner and resolver on extensions and identifiers). -/
def toLowerStr (s : String) : String :=
  String.mk (s.data.map Char.toLower)

/-! ## Emulator supervisor (`emu.rs`) -/

/-- Result of one `child.try_wait()` call: the child exited with a
status, is still running, or waiting failed. -/
inductive TryWait
  | exited (status : Int)
  | running
  | err (e : String)
deriving DecidableEq

/-- One iteration of the monitor loop of `spawn_emulator_template`
(`emu.rs` lines 29-51) acting on the shared slot (`true` = non-empty):
with a child present, an observed exit or a wait error clears the slot,
still-running keeps it; with no child present the loop just breaks. -/
def monitor_step (slot : Bool) (tw : TryWait) : Bool :=
  if slot then
    match tw with
    | .exited _ => false
    | .running => true
    | .err _ => false
  else false

/-- The post-kill poll loop of `kill_current_emulator` (`emu.rs` lines
70-95).  The input list holds the `try_wait` results observed before the
1-second deadline; an exhausted list means the deadline elapsed first.
Returns the user-facing result and the slot contents afterwards. -/
def kill_poll : List TryWait → Except String String × Bool
  | [] => (Except.ok "Emulator kill signalled", false)
  | TryWait.exited s :: _ =>
      (Except.ok ("Emulator killed (status: " ++ toString s ++ ")"), false)
  | TryWait.running :: rest => kill_poll rest
  | TryWait.err e :: _ =>
      (Except.error ("error waiting for process: " ++ e), false)

/-- `kill_current_emulator` from `emu.rs`: `slot` is whether a child is
present, `sig` the outcome of `child.kill()`, `poll` the `try_wait`
observations before the timeout.  Returns the `Result` and the slot
contents afterwards. -/
def kill_current_emulator (slot : Bool) (sig : Except String Unit)
    (poll : List TryWait) : Except String String × Bool :=
  if slot then
    match sig with
    | .ok _ => kill_poll poll
    | .error e => (Except.error ("failed to kill process: " ++ e), true)
  else (Except.error "No emulator running", false)

/-- One operation on the shared child slot: a successful spawn
(`*slot = Some(child)`), a failed spawn (slot untouched), one monitor
poll iteration, or a call to `kill_current_emulator`. -/
inductive SlotEvent
  | spawnOk
  | spawnFail
  | exitPoll (tw : TryWait)
  | kill (sig : Except String Unit) (poll : List TryWait)

/-- Whether an operation is a successful spawn. -/
def isSpawnOk : SlotEvent → Bool
  | .spawnOk => true
  | _ => false

/-- Effect of one `SlotEvent` on the slot, assembled from the embedded
supervisor functions. -/
def slot_step (b : Bool) (e : SlotEvent) : Bool :=
  match e with
  | .spawnOk => true
  | .spawnFail => b
  | .exitPoll tw => monitor_step b tw
  | .kill sig poll => (kill_current_emulator b sig poll).2

/-- Slot contents after a sequence of operations, starting empty. -/
def slot_after (t : List SlotEvent) : Bool :=
  t.foldl slot_step false

/-- Whether an operation observes a child exit or completes a kill: a
monitor poll seeing an exit or a wait error, or a kill whose terminate
signal was accepted (all of whose continuations clear the slot). -/
def observesClear (e : SlotEvent) : Bool :=
  match e with
  | .exitPoll (.exited _) => true
  | .exitPoll (.err _) => true
  | .kill (.ok _) _ => true
  | _ => false

/-- Helper for the slot invariant: slot contents read off the reversed
event sequence. -/
def live_rev : List SlotEvent → Bool
  | [] => false
  | e :: rest =>
      if isSpawnOk e then true
      else if observesClear e then false
      else live_rev rest

/-! ## Library scanner and system resolver (`scan.rs`) -/

/-- A scanned file's path relative to the scan root, as components. -/
abbrev RelPath := List String

/-- The fixed archive-extension ignore set of `scan_grouped`. -/
def ignored_exts : List String := ["zip", "7z", "rar", "gz", "xz"]

/-- Rust `Path::extension` on a file name: the part after the last dot,
provided that dot is not the leading character; `none` when there is no
such dot. -/
def fileExtension (name : String) : Option String :=
  match (name.data.reverse).findIdx? (fun c => c == '.') with
  | none => none
  | some j =>
      if j + 1 < name.data.length then
        some (String.mk ((name.data.reverse.take j).reverse))
      else none

/-- Extension of a relative path: Rust `Path::extension`, which works on
the file name (the last component). -/
def fileExtOf (p : RelPath) : Option String :=
  match p.getLast? with
  | some name => fileExtension name
  | none => none

/-- `HashMap::get` on the association-list model of the per-system
template map. -/
def lookupTemplate (systems : List (String × CmdTemplate)) (k : String) :
    Option CmdTemplate :=
  match systems.find? (fun kv => kv.1 == k) with
  | some kv => some kv.2
  | none => none

/-- The per-file decision of the `scan_grouped` loop body (`scan.rs`
lines 16-51): returns the group key (the case-folded first path
segment) when the file is included, `none` when it is skipped. -/
def includeFile (cfg : ConfigFile) (p : RelPath) : Option String :=
  match p.getLast? with
  | none => none
  | some name =>
      if (match fileExtension name with
          | some e => ignored_exts.contains (toLowerStr e)
          | none => false) then none
      else match p.head? with
        | none => none
        | some first =>
            match cfg.systems with
            | none => none
            | some systems =>
                match lookupTemplate systems (toLowerStr first) with
                | none => none
                | some tmpl =>
                    match tmpl.visible_extensions with
                    | none => some (toLowerStr first)
                    | some visible =>
                        match fileExtension name with
                        | none => none
                        | some ext =>
                            if visible.any
                                (fun e => toLowerStr e == toLowerStr ext) then
                              some (toLowerStr first)
                            else none

/-- `groups.entry(k).or_default().push(p)` on the association-list model
of the grouped index. -/
def insertGroup (groups : List (String × List RelPath)) (k : String)
    (p : RelPath) : List (String × List RelPath) :=
  match groups with
  | [] => [(k, [p])]
  | (k', v) :: rest =>
      if k' = k then (k', v ++ [p]) :: rest
      else (k', v) :: insertGroup rest k p

/-- The accumulation loop of `scan_grouped` over the regular files found
by the traversal (traversal order is unspecified in the source). -/
def scan_fold (cfg : ConfigFile) :
    List RelPath → List (String × List RelPath) → List (String × List RelPath)
  | [], g => g
  | p :: rest, g =>
      scan_fold cfg rest
        (match includeFile cfg p with
         | some k => insertGroup g k p
         | none => g)

/-- `scan_grouped` from `scan.rs`: group the regular files under the
root, then sort every per-system list (`v.sort()`; `RelPath` carries the
component-wise lexicographic order Rust uses for `PathBuf`). -/
def scan_grouped (files : List RelPath) (cfg : ConfigFile) :
    List (String × List RelPath) :=
  (scan_fold cfg files []).map
    (fun kv => (kv.1, List.insertionSort (· ≤ ·) kv.2))

/-- Lookup of one system's list in the grouped index (empty when the
system has no entry). -/
def lookupGroup (groups : List (String × List RelPath)) (sys : String) :
    List RelPath :=
  match groups.find? (fun kv => kv.1 == sys) with
  | some kv => kv.2
  | none => []

/-- Whether one system of the configuration claims the (already
lowercased) extension: its template exists and its extension list
contains the extension case-insensitively.  This is the loop body of
`find_system_for_extension`. -/
def systemClaims (cfg : ConfigFile) (ext_l : String) (sys : String) : Bool :=
  match cfg.systems with
  | none => false
  | some systems =>
      match lookupTemplate systems sys with
      | none => false
      | some tmpl =>
          match tmpl.extensions with
          | none => false
          | some exts => exts.any (fun e => toLowerStr e == ext_l)

/-- Inner loop of `find_system_for_extension` over `systems_order`. -/
def findSysLoop (systems : List (String × CmdTemplate)) (ext_l : String) :
    List String → Option String
  | [] => none
  | sys :: rest =>
      match lookupTemplate systems sys with
      | some tmpl =>
          match tmpl.extensions with
          | some exts =>
              if exts.any (fun e => toLowerStr e == ext_l) then some sys
              else findSysLoop systems ext_l rest
          | none => findSysLoop systems ext_l rest
      | none => findSysLoop systems ext_l rest

/-- `find_system_for_extension` from `scan.rs`: lowercase the extension
and return the first system in `systems_order` whose template lists
it. -/
def find_system_for_extension (ext : String) (cfg : ConfigFile)
    (systems_order : List String) : Option String :=
  match cfg.systems with
  | some systems => findSysLoop systems (toLowerStr ext) systems_order
  | none => none

/-! ## Menu state machine (`ui.rs::process_menu`, Open state) -/

/-- Keyboard keys the Open-menu handler distinguishes. -/
inductive MKey
  | up
  | down
  | returnKey
  | escape
  | otherKey
deriving DecidableEq

/-- Controller buttons the Open-menu handler distinguishes. -/
inductive MButton
  | dpadUp
  | dpadDown
  | a
  | b
  | otherButton
deriving DecidableEq

/-- Input events delivered to the menu while it is open. -/
inductive MEvent
  | keyDown (k : MKey)
  | controllerButtonDown (btn : MButton)
  | joyButtonDown (idx : Nat)
  | otherEvent
deriving DecidableEq

/-- Menu state (`MenuState` in `ui.rs`): closed, open over an item list
with a selection, or remapping. -/
inductive MenuStateM
  | closed
  | opened (items : List String) (selected : Nat)
  | remap (actions : List String) (idx : Nat)
           (temp_map : List (String × String))
deriving DecidableEq

/-- The fixed ordered action list built when "Remap controls" is
activated. -/
def remapActions : List String :=
  ["A", "B", "UP", "DOWN", "LEFT", "RIGHT", "START"]

/-- Environment side effects of Open-menu activations; the embedding
records them symbolically instead of touching config or disk. -/
inductive MenuEffect
  | toggleShowEmpty
  | reloadConfig
  | saveConfig
deriving DecidableEq

/-- Mutable outputs of the Open-state event loop of `process_menu`:
the selection cursor, the pending state change, the quit request and
the recorded side effects. -/
structure OpenAcc where
  msel : Nat
  nextState : Option MenuStateM
  shouldQuit : Bool
  effects : List MenuEffect
deriving DecidableEq

/-- One event of the Open-state loop of `process_menu` (`ui.rs` lines
439-642).  Returns the updated accumulator and whether the loop broke
(it breaks on entering Remap and on the joystick Exit branch). -/
def process_open_event (items : List String) (acc : OpenAcc) (ev : MEvent) :
    OpenAcc × Bool :=
  match ev with
  | .keyDown .up =>
      (if acc.msel > 0 then { acc with msel := acc.msel - 1 } else acc, false)
  | .keyDown .down =>
      (if acc.msel + 1 < items.length then { acc with msel := acc.msel + 1 }
       else acc, false)
  | .keyDown .returnKey =>
      match items.getD acc.msel "" with
      | "Toggle show_empty_systems" =>
          ({ acc with effects := acc.effects ++ [.toggleShowEmpty] }, false)
      | "Remap controls" =>
          ({ acc with nextState := some (.remap remapActions 0 []) }, true)
      | "Reload config" =>
          ({ acc with effects := acc.effects ++ [.reloadConfig] }, false)
      | "Save config" =>
          ({ acc with effects := acc.effects ++ [.saveConfig] }, false)
      | "Close" => ({ acc with nextState := some .closed }, false)
      | "Exit" =>
          ({ acc with shouldQuit := true, nextState := some .closed }, false)
      | _ => (acc, false)
  | .keyDown .escape => ({ acc with nextState := some .closed }, false)
  | .keyDown .otherKey => (acc, false)
  | .controllerButtonDown .dpadUp =>
      (if acc.msel > 0 then { acc with msel := acc.msel - 1 } else acc, false)
  | .controllerButtonDown .dpadDown =>
      (if acc.msel + 1 < items.length then { acc with msel := acc.msel + 1 }
       else acc, false)
  | .controllerButtonDown .a =>
      match items.getD acc.msel "" with
      | "Toggle show_empty_systems" =>
          ({ acc with effects := acc.effects ++ [.toggleShowEmpty] }, false)
      | "Remap controls" =>
          ({ acc with nextState := some (.remap remapActions 0 []) }, true)
      | "Save config" =>
          ({ acc with effects := acc.effects ++ [.saveConfig] }, false)
      | "Close" => ({ acc with nextState := some .closed }, false)
      | "Exit" =>
          ({ acc with shouldQuit := true, nextState := some .closed }, false)
      | _ => (acc, false)
  | .controllerButtonDown .b => ({ acc with nextState := some .closed }, false)
  | .controllerButtonDown .otherButton => (acc, false)
  | .joyButtonDown idx =>
      if acc.msel < items.length then
        if idx = 0 then
          match items.getD acc.msel "" with
          | "Remap controls" =>
              ({ acc with nextState := some (.remap remapActions 0 []) }, true)
          | "Exit" =>
              ({ acc with shouldQuit := true, nextState := some .closed },
               true)
          | _ => (acc, false)
        else (acc, false)
      else (acc, false)
  | .otherEvent => (acc, false)

/-- The `for event in menu_events.drain(..)` loop with its `break`
semantics. -/
def process_open_events (items : List String) :
    List MEvent → OpenAcc → OpenAcc
  | [], acc => acc
  | ev :: rest, acc =>
      match process_open_event items acc ev with
      | (acc', true) => acc'
      | (acc', false) => process_open_events items rest acc'

/-- Open-state part of `process_menu`: drain the frame's buffered events
starting from the current selection, with no pending state change, no
quit request and no effects. -/
def process_menu_open (items : List String) (msel : Nat)
    (events : List MEvent) : OpenAcc :=
  process_open_events items events
    { msel := msel, nextState := none, shouldQuit := false, effects := [] }

/-! ## Combo detector (modelled from the spec) -/

/-- Modelled from the spec: the sources contain no ComboDetector
implementation, so the ComboTracker data of spec section 3 is built from
its words: a mapping from button identifier to last-press timestamp
(milliseconds) plus the timestamp of the last chord fire. -/
structure ComboTracker where
  pressed : List (String × Nat)
  lastFire : Option Nat
deriving DecidableEq

/-- Modelled from the spec: entries are added (or refreshed) on press. -/
def updatePress (m : List (String × Nat)) (btn : String) (t : Nat) :
    List (String × Nat) :=
  match m with
  | [] => [(btn, t)]
  | (b, ts) :: rest =>
      if b = btn then (btn, t) :: rest
      else (b, ts) :: updatePress rest btn t

/-- Last-press timestamp tracked for a button, if any. -/
def lookupPress (m : List (String × Nat)) (btn : String) : Option Nat :=
  match m.find? (fun bt => bt.1 == btn) with
  | some bt => some bt.2
  | none => none

/-- Modelled from the spec: the cooldown (1 s) since the last fire has
elapsed (trivially so when the chord never fired). -/
def cooldownOk (lastFire : Option Nat) (now : Nat) : Bool :=
  match lastFire with
  | none => true
  | some f => decide (f + 1000 ≤ now)

/-- Timestamps currently tracked for the required buttons. -/
def reqTimes (req : List String) (m : List (String × Nat)) : List Nat :=
  req.filterMap (fun b => lookupPress m b)

/-- Modelled from the spec: all required buttons are tracked and their
press timestamps span at most 400 ms from earliest to latest. -/
def chordReady (req : List String) (m : List (String × Nat)) : Bool :=
  req.all (fun b => (lookupPress m b).isSome) &&
    (match reqTimes req m with
     | [] => false
     | t :: ts =>
         decide (ts.foldl max t - ts.foldl min t ≤ 400))

/-- Modelled from the spec (section 4.6): on a press the tracker is
updated; if the cooldown has elapsed and the chord is ready the detector
fires exactly once, clears the tracked presses and resets the cooldown
clock.  Returns the new tracker and whether the chord fired. -/
def combo_on_press (req : List String) (tr : ComboTracker) (btn : String)
    (now : Nat) : ComboTracker × Bool :=
  if cooldownOk tr.lastFire now &&
      chordReady req (updatePress tr.pressed btn now) then
    ({ pressed := [], lastFire := some now }, true)
  else ({ pressed := updatePress tr.pressed btn now,
          lastFire := tr.lastFire }, false)

/-- Modelled from the spec: a release removes the button from tracking
regardless of chord state. -/
def combo_on_release (tr : ComboTracker) (btn : String) : ComboTracker :=
  { pressed := tr.pressed.filter (fun bt => !(bt.1 == btn))
    lastFire := tr.lastFire }

/-! ## Concrete data used by the witnesses -/

/-- A template claiming the `sfc`/`smc` extensions. -/
def tmplSnes : CmdTemplate :=
  { program := "snes9x", args := ["{rom}"]
    extensions := some ["sfc", "smc"], visible_extensions := none }

/-- A template claiming the `gba` extension. -/
def tmplGba : CmdTemplate :=
  { program := "mgba-qt", args := ["{rom}"]
    extensions := some ["gba"], visible_extensions := none }

/-- A template claiming the `nes` extension, restricting visibility to
it as well. -/
def tmplNes : CmdTemplate :=
  { program := "fceux", args := ["{rom}"]
    extensions := some ["nes"], visible_extensions := some ["nes"] }

/-- Configuration with two systems whose extension lists overlap on
`sfc` plus a `gba` system; used to witness order-dependent
resolution. -/
def cfgOverlap : ConfigFile :=
  { defaultConfig with
    systems := some [("gba", tmplGba), ("snes", tmplSnes),
                     ("snes2", tmplSnes)] }

/-- Configuration with one `nes` system; used to witness scanning. -/
def cfgNes : ConfigFile :=
  { defaultConfig with systems := some [("nes", tmplNes)] }

/-! ## Theorems -/

/-- Claim C8: config loading merges field by field — every field present
in the parsed document overrides the in-memory default, every absent
field keeps the default; in particular a document with only one field
set yields a configuration whose every other field equals the built-in
default. -/
theorem load_config_merge_fieldwise :
    (∀ doc : ConfigFile,
      (load_config (.parsed doc)).default
          = doc.default.or defaultConfig.default ∧
      (load_config (.parsed doc)).systems
          = doc.systems.or defaultConfig.systems ∧
      (load_config (.parsed doc)).show_empty_systems
          = doc.show_empty_systems.or defaultConfig.show_empty_systems ∧
      (load_config (.parsed doc)).controller_map
          = doc.controller_map.or defaultConfig.controller_map ∧
      (load_config (.parsed doc)).default_roms_path
          = doc.default_roms_path.or defaultConfig.default_roms_path ∧
      (load_config (.parsed doc)).font_path
          = doc.font_path.or defaultConfig.font_path) ∧
    (∀ sys,
      load_config (.parsed
          { default := none, systems := some sys, show_empty_systems := none,
            controller_map := none, default_roms_path := none,
            font_path := none })
        = { defaultConfig with systems := some sys }) := by
  constructor
  · intro doc
    obtain ⟨d, s, se, cm, dr, fp⟩ := doc
    refine ⟨?_, ?_, ?_, ?_, ?_, ?_⟩
    · cases d <;> rfl
    · cases s <;> rfl
    · cases se <;> rfl
    · cases cm <;> rfl
    · cases dr <;> rfl
    · cases fp <;> rfl
  · intro sys
    rfl

/-- Claim C10: for every file-system outcome, the loaded configuration
has its default launch template and its show-empty-systems flag
populated, because the built-in defaults set both and the merge only
replaces a field with a present parsed value. -/
theorem load_config_defaults_populated (o : FsOutcome) :
    (load_config o).default.isSome = true ∧
    (load_config o).show_empty_systems.isSome = true := by
  cases o with
  | noPath => exact ⟨rfl, rfl⟩
  | unreadable => exact ⟨rfl, rfl⟩
  | unparsable => exact ⟨rfl, rfl⟩
  | parsed doc =>
      obtain ⟨d, s, se, cm, dr, fp⟩ := doc
      constructor
      · cases d <;> rfl
      · cases se <;> rfl

/-- Claim C3 (counterexample): an argument that merely contains the
placeholder token as a substring is passed through literally, not
substituted, so the claim's substring-substitution behavior fails at
the template argument `"--rom={rom}"`. -/
theorem spawn_args_substring_counterexample :
    spawn_args ["--rom={rom}"] "game.nes" = ["--rom={rom}"] ∧
    spawn_args_spec ["--rom={rom}"] "game.nes" = ["--rom=game.nes"] ∧
    spawn_args ["--rom={rom}"] "game.nes"
      ≠ spawn_args_spec ["--rom={rom}"] "game.nes" := by
  refine ⟨?_, ?_, ?_⟩ <;> decide

/-- Claim C3 (amended): spawn builds the child's argument list by
replacing each argument that is exactly the placeholder token `"{rom}"`
with the item's path and passing every other argument — including one
containing the token as a proper substring — through literally. -/
theorem spawn_args_amended (args : List String) (rom : String) :
    (spawn_args args rom).length = args.length ∧
    ∀ i, i < args.length →
      (spawn_args args rom).getD i "" =
        (if args.getD i "" = "{rom}" then rom else args.getD i "") := by
  constructor
  · simp [spawn_args]
  · intro i hi
    have hsome : args[i]? = some args[i] := List.getElem?_eq_getElem hi
    simp [spawn_args, List.getD_eq_getElem?_getD, List.getElem?_map, hsome]

/-- Witness for the amended C3 theorem at a concrete template. -/
theorem spawn_args_amended_witness :
    (spawn_args ["-f", "{rom}"] "g.nes").getD 1 "" =
      (if (["-f", "{rom}"].getD 1 "") = "{rom}" then "g.nes"
       else ["-f", "{rom}"].getD 1 "") :=
  (spawn_args_amended ["-f", "{rom}"] "g.nes").2 1 (by decide)

/-- The post-kill poll loop passes over still-running observations. -/
theorem kill_poll_replicate (n : Nat) (rest : List TryWait) :
    kill_poll (List.replicate n TryWait.running ++ rest) = kill_poll rest := by
  induction n with
  | zero => rfl
  | succ k ih =>
      rw [List.replicate_succ, List.cons_append]
      simpa [kill_poll] using ih

/-- Claim C2: `kill_current_emulator` on an empty slot fails with the
"No emulator running" error leaving the slot empty; a failed terminate
signal is returned as an error with the slot untouched; a child exit
observed before the timeout clears the slot and reports success with
the exit status; an elapsed timeout clears the slot and reports the
"kill signalled" message; a poll error clears the slot and is returned
as an error. -/
theorem kill_current_emulator_spec :
    (∀ sig poll, kill_current_emulator false sig poll =
        (Except.error "No emulator running", false)) ∧
    (∀ e poll, kill_current_emulator true (Except.error e) poll =
        (Except.error ("failed to kill process: " ++ e), true)) ∧
    (∀ n s rest, kill_current_emulator true (Except.ok ())
          (List.replicate n TryWait.running ++ TryWait.exited s :: rest) =
        (Except.ok ("Emulator killed (status: " ++ toString s ++ ")"),
         false)) ∧
    (∀ n, kill_current_emulator true (Except.ok ())
          (List.replicate n TryWait.running) =
        (Except.ok "Emulator kill signalled", false)) ∧
    (∀ n e rest, kill_current_emulator true (Except.ok ())
          (List.replicate n TryWait.running ++ TryWait.err e :: rest) =
        (Except.error ("error waiting for process: " ++ e), false)) := by
  refine ⟨fun sig poll => rfl, fun e poll => rfl, ?_, ?_, ?_⟩
  · intro n s rest
    simp [kill_current_emulator, kill_poll_replicate, kill_poll]
  · intro n
    have h := kill_poll_replicate n []
    simp only [List.append_nil] at h
    simp [kill_current_emulator, h, kill_poll]
  · intro n e rest
    simp [kill_current_emulator, kill_poll_replicate, kill_poll]

/-- Claim C9: the kill path and the monitor's exit-detection path only
ever take the slot from present to empty — neither re-populates a slot —
and both treat an already-empty slot as a no-op (monitor) or a failure
(kill) rather than touching it. -/
theorem slot_clear_only :
    (∀ tw, monitor_step false tw = false) ∧
    (∀ b tw, monitor_step b tw = true → b = true) ∧
    (∀ sig poll, kill_current_emulator false sig poll =
        (Except.error "No emulator running", false)) ∧
    (∀ b sig poll,
        (kill_current_emulator b sig poll).2 = true → b = true) := by
  refine ⟨fun tw => rfl, ?_, fun sig poll => rfl, ?_⟩
  · intro b tw h
    cases b
    · simp [monitor_step] at h
    · rfl
  · intro b sig poll h
    cases b
    · simp [kill_current_emulator] at h
    · rfl

/-- Witness for C9's theorem: a kill whose terminate signal failed left
the slot populated, so the slot was populated before. -/
theorem slot_clear_only_witness : (true : Bool) = true :=
  slot_clear_only.2.2.2 true (Except.error "boom") [] rfl

/-- Every branch of the post-kill poll loop clears the slot. -/
theorem kill_poll_snd (poll : List TryWait) : (kill_poll poll).2 = false := by
  induction poll with
  | nil => rfl
  | cons tw rest ih => cases tw <;> simp [kill_poll, ih]

/-- Uniform description of one slot operation: a successful spawn sets
the slot, an exit or completed-kill observation clears it, everything
else leaves it unchanged. -/
theorem slot_step_eq (b : Bool) (e : SlotEvent) :
    slot_step b e =
      if isSpawnOk e then true
      else if observesClear e then false
      else b := by
  cases e with
  | spawnOk => rfl
  | spawnFail => cases b <;> rfl
  | exitPoll tw => cases tw <;> cases b <;> rfl
  | kill sig poll =>
      cases sig with
      | ok u =>
          cases b
          · rfl
          · simp [slot_step, kill_current_emulator, observesClear, isSpawnOk,
                  kill_poll_snd]
      | error e => cases b <;> rfl

/-- The slot after a trace equals the reversed-trace reading. -/
theorem foldl_slot_eq_live_rev (t : List SlotEvent) :
    t.foldl slot_step false = live_rev t.reverse := by
  induction t using List.reverseRecOn with
  | nil => rfl
  | append_singleton l e ih =>
      rw [List.foldl_append, List.reverse_append]
      simp [live_rev, slot_step_eq, ih]

/-- Characterization of the reversed-trace reading: the slot is live
exactly when the reversed trace starts with a sterile segment followed
by a successful spawn. -/
theorem live_rev_iff (r : List SlotEvent) :
    live_rev r = true ↔
      ∃ r₁ r₂, r = r₁ ++ .spawnOk :: r₂ ∧
        ∀ e ∈ r₁, isSpawnOk e = false ∧ observesClear e = false := by
  induction r with
  | nil =>
      constructor
      · intro h
        exact absurd h (by simp [live_rev])
      · rintro ⟨r₁, r₂, h, -⟩
        exact absurd h (by simp)
  | cons e rest ih =>
      by_cases hs : isSpawnOk e = true
      · have he : e = .spawnOk := by
          cases e <;> simp [isSpawnOk] at hs ⊢
        subst he
        simp only [live_rev, isSpawnOk, if_true, true_iff]
        exact ⟨[], rest, rfl, by simp⟩
      · replace hs : isSpawnOk e = false := by simpa using hs
        by_cases hc : observesClear e = true
        · simp only [live_rev, hs, hc, Bool.false_eq_true, if_false, if_true]
          constructor
          · intro h
            exact absurd h (by simp)
          · rintro ⟨r₁, r₂, h, hst⟩
            cases r₁ with
            | nil =>
                simp only [List.nil_append, List.cons.injEq] at h
                obtain ⟨he, -⟩ := h
                subst he
                simp [isSpawnOk] at hs
            | cons x r₁ =>
                simp only [List.cons_append, List.cons.injEq] at h
                obtain ⟨hex, -⟩ := h
                subst hex
                have := (hst e (by simp)).2
                rw [this] at hc
                exact absurd hc (by simp)
        · replace hc : observesClear e = false := by simpa using hc
          simp only [live_rev, hs, hc, Bool.false_eq_true, if_false]
          rw [ih]
          constructor
          · rintro ⟨r₁, r₂, h, hst⟩
            refine ⟨e :: r₁, r₂, by rw [h]; rfl, ?_⟩
            intro x hx
            rcases List.mem_cons.mp hx with hx | hx
            · subst hx; exact ⟨hs, hc⟩
            · exact hst x hx
          · rintro ⟨r₁, r₂, h, hst⟩
            cases r₁ with
            | nil =>
                simp only [List.nil_append, List.cons.injEq] at h
                obtain ⟨he, -⟩ := h
                subst he
                simp [isSpawnOk] at hs
            | cons x r₁ =>
                simp only [List.cons_append, List.cons.injEq] at h
                obtain ⟨-, h'⟩ := h
                exact ⟨r₁, r₂, h', fun y hy => hst y (by simp [hy])⟩

/-- Claim C1: after any sequence of spawn, kill and exit-detection
operations starting from the empty slot, the slot is non-empty exactly
when the sequence ends in a successful spawn followed only by
operations that neither spawn again nor observe a child exit or a
completed kill — i.e. exactly one spawn has succeeded and neither an
exit nor a completed kill has since been observed. -/
theorem slot_invariant (t : List SlotEvent) :
    slot_after t = true ↔
      ∃ t₁ t₂, t = t₁ ++ .spawnOk :: t₂ ∧
        ∀ e ∈ t₂, isSpawnOk e = false ∧ observesClear e = false := by
  rw [slot_after, foldl_slot_eq_live_rev, live_rev_iff]
  constructor
  · rintro ⟨r₁, r₂, h, hst⟩
    refine ⟨r₂.reverse, r₁.reverse, ?_, ?_⟩
    · have h2 := congrArg List.reverse h
      simpa [List.reverse_append] using h2
    · intro e he
      exact hst e (by simpa using he)
  · rintro ⟨t₁, t₂, h, hst⟩
    refine ⟨t₂.reverse, t₁.reverse, ?_, ?_⟩
    · rw [h]
      simp [List.reverse_append]
    · intro e he
      exact hst e (by simpa using he)

/-- Witness for C1's theorem: a successful spawn followed by a failed
spawn leaves the slot populated. -/
theorem slot_invariant_witness :
    slot_after [SlotEvent.spawnOk, SlotEvent.spawnFail] = true :=
  (slot_invariant [SlotEvent.spawnOk, SlotEvent.spawnFail]).mpr
    ⟨[], [SlotEvent.spawnFail], rfl, by
      intro e he
      simp only [List.mem_singleton] at he
      subst he
      exact ⟨rfl, rfl⟩⟩

/-- The resolver loop is the first-match search over the order list. -/
theorem findSysLoop_eq_find (systems : List (String × CmdTemplate))
    (ext_l : String) (order : List String) :
    findSysLoop systems ext_l order
      = order.find? (fun sys =>
          match lookupTemplate systems sys with
          | none => false
          | some tmpl =>
              match tmpl.extensions with
              | none => false
              | some exts => exts.any (fun e => toLowerStr e == ext_l)) := by
  induction order with
  | nil => rfl
  | cons sys rest ih =>
      cases h : lookupTemplate systems sys with
      | none => simp [findSysLoop, h, List.find?, ih]
      | some tmpl =>
          cases hx : tmpl.extensions with
          | none => simp [findSysLoop, h, hx, List.find?, ih]
          | some exts =>
              by_cases ha : exts.any (fun e => toLowerStr e == ext_l) = true
              · simp [findSysLoop, h, hx, ha, List.find?]
              · replace ha : exts.any (fun e => toLowerStr e == ext_l) = false := by
                  simpa using ha
                simp [findSysLoop, h, hx, ha, List.find?, ih]

/-- `find_system_for_extension` is the first system of the order that
claims the extension. -/
theorem find_system_eq_find (ext : String) (cfg : ConfigFile)
    (order : List String) :
    find_system_for_extension ext cfg order
      = order.find? (fun sys => systemClaims cfg (toLowerStr ext) sys) := by
  obtain ⟨d, s, se, cm, dr, fp⟩ := cfg
  cases s with
  | none =>
      symm
      simp [find_system_for_extension, List.find?_eq_none, systemClaims]
  | some systems =>
      simp only [find_system_for_extension, systemClaims]
      exact findSysLoop_eq_find systems (toLowerStr ext) order

/-- Claim C6: `find_system_for_extension` returns the first system in
`systems_order` whose template's extension list contains the extension
case-insensitively, `none` when no system in the order matches; when
systems earlier in the order do not claim the extension and one does,
that one is returned regardless of later matches. -/
theorem find_system_for_extension_spec :
    (∀ ext cfg order,
      find_system_for_extension ext cfg order
        = order.find? (fun sys => systemClaims cfg (toLowerStr ext) sys)) ∧
    (∀ ext cfg order,
      find_system_for_extension ext cfg order = none ↔
        ∀ sys ∈ order, systemClaims cfg (toLowerStr ext) sys = false) ∧
    (∀ ext cfg pre s post,
      systemClaims cfg (toLowerStr ext) s = true →
      (∀ x ∈ pre, systemClaims cfg (toLowerStr ext) x = false) →
      find_system_for_extension ext cfg (pre ++ s :: post) = some s) := by
  refine ⟨find_system_eq_find, ?_, ?_⟩
  · intro ext cfg order
    rw [find_system_eq_find, List.find?_eq_none]
    simp
  · intro ext cfg pre s post hs hpre
    rw [find_system_eq_find]
    induction pre with
    | nil =>
        simpa [List.find?] using List.find?_cons_of_pos (p :=
          fun sys => systemClaims cfg (toLowerStr ext) sys) post hs
    | cons x pre ih =>
        rw [List.cons_append, List.find?_cons_of_neg]
        · exact ih (fun y hy => hpre y (by simp [hy]))
        · simp [hpre x (by simp)]

/-- Witness for C6's theorem: two configured systems overlap on the
`sfc` extension; the one earlier in the order wins, case-insensitively. -/
theorem find_system_for_extension_spec_witness :
    find_system_for_extension "SFC" cfgOverlap (["gba"] ++ "snes" :: ["snes2"])
      = some "snes" :=
  find_system_for_extension_spec.2.2 "SFC" cfgOverlap ["gba"] "snes" ["snes2"]
    (by decide) (by decide)

/-- Claim C5: with the menu in the Open state, activating the "Exit"
item — by Return, by controller A, or by joystick button 0 — produces a
pending transition to Closed together with the quit-requested effect. -/
theorem process_menu_exit_quits (items : List String) (msel : Nat)
    (hsel : items.getD msel "" = "Exit") (hlt : msel < items.length) :
    ((process_menu_open items msel [MEvent.keyDown MKey.returnKey]).nextState
        = some MenuStateM.closed ∧
     (process_menu_open items msel
        [MEvent.keyDown MKey.returnKey]).shouldQuit = true) ∧
    ((process_menu_open items msel
        [MEvent.controllerButtonDown MButton.a]).nextState
        = some MenuStateM.closed ∧
     (process_menu_open items msel
        [MEvent.controllerButtonDown MButton.a]).shouldQuit = true) ∧
    ((process_menu_open items msel [MEvent.joyButtonDown 0]).nextState
        = some MenuStateM.closed ∧
     (process_menu_open items msel [MEvent.joyButtonDown 0]).shouldQuit
        = true) := by
  have hsel2 : items[msel] = "Exit" := by
    rw [List.getD_eq_getElem?_getD, List.getElem?_eq_getElem hlt] at hsel
    simpa using hsel
  refine ⟨⟨?_, ?_⟩, ⟨?_, ?_⟩, ⟨?_, ?_⟩⟩ <;>
    simp [process_menu_open, process_open_events, process_open_event,
          hsel2, hlt]

/-- Witness for C5's theorem at a concrete two-item menu. -/
theorem process_menu_exit_quits_witness :
    (process_menu_open ["Close", "Exit"] 1
        [MEvent.keyDown MKey.returnKey]).nextState
      = some MenuStateM.closed :=
  (process_menu_exit_quits ["Close", "Exit"] 1 (by decide) (by decide)).1.1


/-- The seed is bounded by a left fold by `max`. -/
theorem seed_le_foldl_max (t : Nat) (ts : List Nat) : t ≤ ts.foldl max t := by
  induction ts generalizing t with
  | nil => simp
  | cons x ts ih =>
      rw [List.foldl_cons]
      exact le_trans (le_max_left t x) (ih (max t x))

/-- Every list member is bounded by a left fold by `max`. -/
theorem mem_le_foldl_max (y t : Nat) (ts : List Nat) (hy : y ∈ ts) :
    y ≤ ts.foldl max t := by
  induction ts generalizing t with
  | nil => cases hy
  | cons x ts ih =>
      rw [List.foldl_cons]
      rcases List.mem_cons.mp hy with h | h
      · subst h
        exact le_trans (le_max_right t y) (seed_le_foldl_max _ _)
      · exact ih (max t x) h

/-- A left fold by `max` over naturals lands on the seed or a member. -/
theorem foldl_max_mem (t : Nat) (ts : List Nat) :
    ts.foldl max t ∈ t :: ts := by
  induction ts generalizing t with
  | nil => simp
  | cons x ts ih =>
      rw [List.foldl_cons]
      have h := ih (max t x)
      rcases List.mem_cons.mp h with h | h
      · rw [h]
        rcases max_choice t x with hm | hm <;> rw [hm]
        · exact List.mem_cons_self _ _
        · exact List.mem_cons_of_mem _ (List.mem_cons_self _ _)
      · exact List.mem_cons_of_mem _ (List.mem_cons_of_mem _ h)

/-- A left fold by `min` is bounded by the seed. -/
theorem foldl_min_le_seed (t : Nat) (ts : List Nat) : ts.foldl min t ≤ t := by
  induction ts generalizing t with
  | nil => simp
  | cons x ts ih =>
      rw [List.foldl_cons]
      exact le_trans (ih (min t x)) (min_le_left t x)

/-- A left fold by `min` is bounded by every list member. -/
theorem foldl_min_le_mem (y t : Nat) (ts : List Nat) (hy : y ∈ ts) :
    ts.foldl min t ≤ y := by
  induction ts generalizing t with
  | nil => cases hy
  | cons x ts ih =>
      rw [List.foldl_cons]
      rcases List.mem_cons.mp hy with h | h
      · subst h
        exact le_trans (foldl_min_le_seed _ _) (min_le_right t y)
      · exact ih (min t x) h

/-- A left fold by `min` over naturals lands on the seed or a member. -/
theorem foldl_min_mem (t : Nat) (ts : List Nat) :
    ts.foldl min t ∈ t :: ts := by
  induction ts generalizing t with
  | nil => simp
  | cons x ts ih =>
      rw [List.foldl_cons]
      have h := ih (min t x)
      rcases List.mem_cons.mp h with h | h
      · rw [h]
        rcases min_choice t x with hm | hm <;> rw [hm]
        · exact List.mem_cons_self _ _
        · exact List.mem_cons_of_mem _ (List.mem_cons_self _ _)
      · exact List.mem_cons_of_mem _ (List.mem_cons_of_mem _ h)

/-- Lookup of a tracked press on a cons cell. -/
theorem lookupPress_cons (x : String × Nat) (l : List (String × Nat))
    (btn : String) :
    lookupPress (x :: l) btn =
      if x.1 == btn then some x.2 else lookupPress l btn := by
  by_cases h : x.1 == btn <;> simp [lookupPress, List.find?, h]

/-- The chord-readiness test of the modelled detector, spelled out: all
required buttons tracked and all pairs of their timestamps within the
400 ms window. -/
theorem chordReady_iff (req : List String) (m : List (String × Nat))
    (hreq : req ≠ []) :
    chordReady req m = true ↔
      (∀ b ∈ req, (lookupPress m b).isSome = true) ∧
      (∀ b₁ ∈ req, ∀ b₂ ∈ req, ∀ t₁ t₂,
        lookupPress m b₁ = some t₁ → lookupPress m b₂ = some t₂ →
        t₁ ≤ t₂ + 400) := by
  unfold chordReady
  rw [Bool.and_eq_true, List.all_eq_true]
  constructor
  · rintro ⟨hall, hspan⟩
    refine ⟨hall, ?_⟩
    intro b₁ hb₁ b₂ hb₂ t₁ t₂ h₁ h₂
    have ht₁ : t₁ ∈ reqTimes req m := List.mem_filterMap.mpr ⟨b₁, hb₁, h₁⟩
    have ht₂ : t₂ ∈ reqTimes req m := List.mem_filterMap.mpr ⟨b₂, hb₂, h₂⟩
    cases hrt : reqTimes req m with
    | nil => rw [hrt] at ht₁; cases ht₁
    | cons t ts =>
        rw [hrt] at hspan ht₁ ht₂
        have hle : ts.foldl max t - ts.foldl min t ≤ 400 := by
          simpa using hspan
        have h1 : t₁ ≤ ts.foldl max t := by
          rcases List.mem_cons.mp ht₁ with h | h
          · subst h; exact seed_le_foldl_max _ _
          · exact mem_le_foldl_max _ _ _ h
        have h2 : ts.foldl min t ≤ t₂ := by
          rcases List.mem_cons.mp ht₂ with h | h
          · subst h; exact foldl_min_le_seed _ _
          · exact foldl_min_le_mem _ _ _ h
        omega
  · rintro ⟨hall, hpair⟩
    refine ⟨hall, ?_⟩
    cases hrt : reqTimes req m with
    | nil =>
        cases req with
        | nil => exact absurd rfl hreq
        | cons b req' =>
            have hb := hall b (List.mem_cons_self _ _)
            rcases Option.isSome_iff_exists.mp hb with ⟨t, ht⟩
            have hmem : t ∈ reqTimes (b :: req') m :=
              List.mem_filterMap.mpr ⟨b, List.mem_cons_self _ _, ht⟩
            rw [hrt] at hmem
            cases hmem
    | cons t ts =>
        have hmax : ts.foldl max t ∈ reqTimes req m := by
          rw [hrt]; exact foldl_max_mem t ts
        have hmin : ts.foldl min t ∈ reqTimes req m := by
          rw [hrt]; exact foldl_min_mem t ts
        obtain ⟨b₁, hb₁, h₁⟩ := List.mem_filterMap.mp hmax
        obtain ⟨b₂, hb₂, h₂⟩ := List.mem_filterMap.mp hmin
        have hp := hpair b₁ hb₁ b₂ hb₂ _ _ h₁ h₂
        simp only [decide_eq_true_eq]
        omega

/-- Releasing a button removes its tracked press. -/
theorem lookupPress_filter_self (m : List (String × Nat)) (btn : String) :
    lookupPress (m.filter (fun bt => !(bt.1 == btn))) btn = none := by
  induction m with
  | nil => rfl
  | cons x m ih =>
      by_cases h : (x.1 == btn) = true
      · simp [List.filter_cons, h, ih]
      · replace h : (x.1 == btn) = false := by simpa using h
        simp [List.filter_cons, h, lookupPress_cons, ih]

/-- Releasing a button leaves other buttons' tracked presses alone. -/
theorem lookupPress_filter_other (m : List (String × Nat))
    (btn b : String) (hb : b ≠ btn) :
    lookupPress (m.filter (fun bt => !(bt.1 == btn))) b
      = lookupPress m b := by
  induction m with
  | nil => rfl
  | cons x m ih =>
      by_cases h : (x.1 == btn) = true
      · have hx : (x.1 == b) = false := by
          have hxe : x.1 = btn := by simpa using h
          simp [hxe, Ne.symm hb]
        simp [List.filter_cons, h, lookupPress_cons, hx, ih]
      · replace h : (x.1 == btn) = false := by simpa using h
        simp [List.filter_cons, h, lookupPress_cons, ih]

/-- Claim C4 (modelled from the spec): on a press the chord fires
exactly once iff the cooldown since the last fire has elapsed and all
designated buttons are tracked with pairwise timestamp gaps of at most
400 ms; firing clears the tracked presses and resets the cooldown
clock to the press time; not firing just records the press; a release
removes exactly that button from tracking. -/
theorem combo_on_press_spec (req : List String) (tr : ComboTracker)
    (btn : String) (now : Nat) (hreq : req ≠ []) :
    ((combo_on_press req tr btn now).2 = true ↔
      cooldownOk tr.lastFire now = true ∧
      (∀ b ∈ req,
        (lookupPress (updatePress tr.pressed btn now) b).isSome = true) ∧
      (∀ b₁ ∈ req, ∀ b₂ ∈ req, ∀ t₁ t₂,
        lookupPress (updatePress tr.pressed btn now) b₁ = some t₁ →
        lookupPress (updatePress tr.pressed btn now) b₂ = some t₂ →
        t₁ ≤ t₂ + 400)) ∧
    ((combo_on_press req tr btn now).2 = true →
      (combo_on_press req tr btn now).1
        = { pressed := [], lastFire := some now }) ∧
    ((combo_on_press req tr btn now).2 = false →
      (combo_on_press req tr btn now).1
        = { pressed := updatePress tr.pressed btn now,
            lastFire := tr.lastFire }) ∧
    lookupPress (combo_on_release tr btn).pressed btn = none ∧
    (∀ b, b ≠ btn →
      lookupPress (combo_on_release tr btn).pressed b
        = lookupPress tr.pressed b) := by
  refine ⟨?_, ?_, ?_, ?_, ?_⟩
  · unfold combo_on_press
    by_cases hc : (cooldownOk tr.lastFire now &&
        chordReady req (updatePress tr.pressed btn now)) = true
    · rw [if_pos hc]
      rw [Bool.and_eq_true] at hc
      obtain ⟨h1, h2⟩ := hc
      have hcr := (chordReady_iff req (updatePress tr.pressed btn now)
        hreq).mp h2
      constructor
      · intro _
        exact ⟨h1, hcr.1, hcr.2⟩
      · intro _
        rfl
    · rw [if_neg hc]
      replace hc : (cooldownOk tr.lastFire now &&
          chordReady req (updatePress tr.pressed btn now)) = false := by
        simpa using hc
      constructor
      · intro h
        simp at h
      · rintro ⟨h1, h2, h3⟩
        exfalso
        rw [Bool.and_eq_false_iff] at hc
        rcases hc with hc | hc
        · rw [h1] at hc
          simp at hc
        · have := (chordReady_iff req (updatePress tr.pressed btn now)
            hreq).mpr ⟨h2, h3⟩
          rw [this] at hc
          simp at hc
  · intro h
    unfold combo_on_press at h ⊢
    by_cases hc : (cooldownOk tr.lastFire now &&
        chordReady req (updatePress tr.pressed btn now)) = true
    · rw [if_pos hc]
    · rw [if_neg hc] at h
      simp at h
  · intro h
    unfold combo_on_press at h ⊢
    by_cases hc : (cooldownOk tr.lastFire now &&
        chordReady req (updatePress tr.pressed btn now)) = true
    · rw [if_pos hc] at h
      simp at h
    · rw [if_neg hc]
  · simp only [combo_on_release]
    exact lookupPress_filter_self tr.pressed btn
  · intro b hb
    simp only [combo_on_release]
    exact lookupPress_filter_other tr.pressed btn b hb

/-- Witness for C4's theorem: presses at 0 ms, 200 ms and 350 ms with no
prior fire make the chord fire on the third press, clearing the
tracker and setting the cooldown clock to 350 ms. -/
theorem combo_on_press_spec_witness :
    (combo_on_press ["Start", "L", "R"]
        { pressed := [("Start", 0), ("L", 200)], lastFire := none }
        "R" 350).1
      = { pressed := [], lastFire := some 350 } :=
  (combo_on_press_spec ["Start", "L", "R"]
      { pressed := [("Start", 0), ("L", 200)], lastFire := none }
      "R" 350 (by decide)).2.1 (by decide)

/-- Group lookup on a cons cell. -/
theorem lookupGroup_cons (x : String × List RelPath)
    (l : List (String × List RelPath)) (sys : String) :
    lookupGroup (x :: l) sys =
      if x.1 = sys then x.2 else lookupGroup l sys := by
  by_cases h : x.1 = sys
  · simp [lookupGroup, List.find?, h]
  · have hne : (x.1 == sys) = false := beq_eq_false_iff_ne.mpr h
    simp [lookupGroup, List.find?, hne, h]

/-- Effect of `entry(k).or_default().push(p)` on every group lookup. -/
theorem lookupGroup_insertGroup (g : List (String × List RelPath))
    (k sys : String) (p : RelPath) :
    lookupGroup (insertGroup g k p) sys =
      if k = sys then lookupGroup g sys ++ [p] else lookupGroup g sys := by
  induction g with
  | nil =>
      by_cases h : k = sys
      · simp [insertGroup, lookupGroup_cons, lookupGroup, List.find?, h]
      · have hne : (k == sys) = false := beq_eq_false_iff_ne.mpr h
        simp [insertGroup, lookupGroup, List.find?, hne, h]
  | cons x rest ih =>
      obtain ⟨k', v⟩ := x
      simp only [insertGroup]
      by_cases hk : k' = k
      · subst hk
        rw [if_pos rfl]
        by_cases hs : k' = sys <;> simp [lookupGroup_cons, hs]
      · rw [if_neg hk]
        by_cases hs : k' = sys
        · subst hs
          have hks : ¬ k = k' := fun h => hk h.symm
          simp [lookupGroup_cons, hks]
        · simp [lookupGroup_cons, hs, ih]

/-- Membership in the grouped index built by the scanner's fold. -/
theorem mem_lookupGroup_scan_fold (cfg : ConfigFile) (files : List RelPath)
    (g : List (String × List RelPath)) (sys : String) (p : RelPath) :
    p ∈ lookupGroup (scan_fold cfg files g) sys ↔
      p ∈ lookupGroup g sys ∨
        (p ∈ files ∧ includeFile cfg p = some sys) := by
  induction files generalizing g with
  | nil => simp [scan_fold]
  | cons f rest ih =>
      simp only [scan_fold]
      cases hf : includeFile cfg f with
      | none =>
          rw [ih]
          constructor
          · rintro (h | ⟨hm, hi⟩)
            · exact Or.inl h
            · exact Or.inr ⟨List.mem_cons_of_mem _ hm, hi⟩
          · rintro (h | ⟨hm, hi⟩)
            · exact Or.inl h
            · rcases List.mem_cons.mp hm with rfl | hm
              · rw [hf] at hi
                cases hi
              · exact Or.inr ⟨hm, hi⟩
      | some k =>
          rw [ih, lookupGroup_insertGroup]
          by_cases hks : k = sys
          · rw [if_pos hks]
            constructor
            · rintro (h | ⟨hm, hi⟩)
              · rcases List.mem_append.mp h with h | h
                · exact Or.inl h
                · rcases List.mem_singleton.mp h with rfl
                  refine Or.inr ⟨List.mem_cons_self _ _, ?_⟩
                  rw [hf, hks]
              · exact Or.inr ⟨List.mem_cons_of_mem _ hm, hi⟩
            · rintro (h | ⟨hm, hi⟩)
              · exact Or.inl (List.mem_append_left _ h)
              · rcases List.mem_cons.mp hm with rfl | hm
                · exact Or.inl (List.mem_append_right _ (List.mem_singleton.mpr rfl))
                · exact Or.inr ⟨hm, hi⟩
          · rw [if_neg hks]
            constructor
            · rintro (h | ⟨hm, hi⟩)
              · exact Or.inl h
              · exact Or.inr ⟨List.mem_cons_of_mem _ hm, hi⟩
            · rintro (h | ⟨hm, hi⟩)
              · exact Or.inl h
              · rcases List.mem_cons.mp hm with rfl | hm
                · rw [hf] at hi
                  exact absurd (Option.some_inj.mp hi) hks
                · exact Or.inr ⟨hm, hi⟩

/-- Sorting every group commutes with group lookup. -/
theorem lookupGroup_map_sort (g : List (String × List RelPath))
    (sys : String) :
    lookupGroup
        (g.map (fun kv => (kv.1, List.insertionSort (· ≤ ·) kv.2))) sys
      = List.insertionSort (· ≤ ·) (lookupGroup g sys) := by
  induction g with
  | nil => rfl
  | cons x rest ih =>
      obtain ⟨k, v⟩ := x
      by_cases h : k = sys
      · simp [lookupGroup_cons, h]
      · simp [lookupGroup_cons, h, ih]

/-- The scanner's per-file decision, spelled out in the claim's terms:
a file is keyed to `sys` exactly when its extension (if any) is not an
archive extension, the case-folded first path segment has a configured
template and equals `sys`, and — when that template lists visible
extensions — the file's extension case-insensitively matches one. -/
theorem includeFile_iff (cfg : ConfigFile) (p : RelPath) (sys : String) :
    includeFile cfg p = some sys ↔
      ∃ name first,
        p.getLast? = some name ∧
        p.head? = some first ∧
        sys = toLowerStr first ∧
        (∀ e, fileExtension name = some e →
          ignored_exts.contains (toLowerStr e) = false) ∧
        ∃ systems tmpl,
          cfg.systems = some systems ∧
          lookupTemplate systems (toLowerStr first) = some tmpl ∧
          (tmpl.visible_extensions = none ∨
            ∃ vis ext, tmpl.visible_extensions = some vis ∧
              fileExtension name = some ext ∧
              vis.any (fun e => toLowerStr e == toLowerStr ext) = true) := by
  constructor
  · intro h
    simp only [includeFile] at h
    cases hl : p.getLast? with
    | none => simp [hl] at h
    | some name =>
        simp only [hl] at h
        by_cases ha : (match fileExtension name with
            | some e => ignored_exts.contains (toLowerStr e)
            | none => false) = true
        · rw [if_pos ha] at h
          cases h
        · rw [if_neg ha] at h
          replace ha : (match fileExtension name with
              | some e => ignored_exts.contains (toLowerStr e)
              | none => false) = false := by simpa using ha
          have hig : ∀ e, fileExtension name = some e →
              ignored_exts.contains (toLowerStr e) = false := by
            intro e he
            rw [he] at ha
            simpa using ha
          cases hh : p.head? with
          | none => simp [hh] at h
          | some first =>
              simp only [hh] at h
              cases hs : cfg.systems with
              | none => simp [hs] at h
              | some systems =>
                  simp only [hs] at h
                  cases ht : lookupTemplate systems (toLowerStr first) with
                  | none => simp [ht] at h
                  | some tmpl =>
                      simp only [ht] at h
                      cases hv : tmpl.visible_extensions with
                      | none =>
                          simp only [hv] at h
                          exact ⟨name, first, rfl, rfl,
                            (Option.some_inj.mp h).symm, hig,
                            systems, tmpl, rfl, ht, Or.inl hv⟩
                      | some visible =>
                          simp only [hv] at h
                          cases hx : fileExtension name with
                          | none => simp [hx] at h
                          | some ext =>
                              simp only [hx] at h
                              by_cases hb : visible.any
                                  (fun e => toLowerStr e == toLowerStr ext)
                                    = true
                              · rw [if_pos hb] at h
                                exact ⟨name, first, rfl, rfl,
                                  (Option.some_inj.mp h).symm, hig,
                                  systems, tmpl, rfl, ht,
                                  Or.inr ⟨visible, ext, hv, hx, hb⟩⟩
                              · rw [if_neg hb] at h
                                cases h
  · rintro ⟨name, first, hl, hh, hsys, hig, systems, tmpl, hs, ht, hvis⟩
    simp only [includeFile, hl, hh, hs, ht]
    have ha : (match fileExtension name with
        | some e => ignored_exts.contains (toLowerStr e)
        | none => false) = false := by
      cases hx : fileExtension name with
      | none => rfl
      | some e => simpa using hig e hx
    rw [if_neg (fun hcond => by rw [ha] at hcond; exact Bool.noConfusion hcond)]
    rcases hvis with hv | ⟨vis, ext, hv, hx, hb⟩
    · rw [hv, hsys]
    · simp only [hv, hx]
      rw [if_pos hb, hsys]

/-- Claim C7: `scan_grouped` includes a regular file under system `sys`
exactly when its extension is not in the fixed archive ignore set, the
configuration defines a template for the case-folded first path segment
below the root (which is `sys`), and — when that template sets a
visible-extensions list — the file's extension matches one of them
case-insensitively; and every per-system list of the returned index is
sorted in the lexicographic path order. -/
theorem scan_grouped_spec (cfg : ConfigFile) (files : List RelPath)
    (sys : String) :
    (∀ p, p ∈ lookupGroup (scan_grouped files cfg) sys ↔
      p ∈ files ∧
        ∃ name first,
          p.getLast? = some name ∧
          p.head? = some first ∧
          sys = toLowerStr first ∧
          (∀ e, fileExtension name = some e →
            ignored_exts.contains (toLowerStr e) = false) ∧
          ∃ systems tmpl,
            cfg.systems = some systems ∧
            lookupTemplate systems (toLowerStr first) = some tmpl ∧
            (tmpl.visible_extensions = none ∨
              ∃ vis ext, tmpl.visible_extensions = some vis ∧
                fileExtension name = some ext ∧
                vis.any (fun e => toLowerStr e == toLowerStr ext) = true)) ∧
    List.Sorted (· ≤ ·) (lookupGroup (scan_grouped files cfg) sys) := by
  constructor
  · intro p
    simp only [scan_grouped]
    rw [lookupGroup_map_sort, List.mem_insertionSort,
        mem_lookupGroup_scan_fold, includeFile_iff]
    simp [lookupGroup, List.find?]
  · simp only [scan_grouped]
    rw [lookupGroup_map_sort]
    exact List.sorted_insertionSort _ _

/-- Witness for C7's theorem: the spec's end-to-end example — a root
holding `nes/game.nes` with a configured `nes` system listing the `nes`
extension yields an index containing that file under `nes`. -/
theorem scan_grouped_spec_witness :
    ["nes", "game.nes"] ∈
      lookupGroup (scan_grouped [["nes", "game.nes"]] cfgNes) "nes" := by
  refine ((scan_grouped_spec cfgNes [["nes", "game.nes"]] "nes").1 _).mpr ?_
  refine ⟨by decide, "game.nes", "nes", by decide, by decide, by decide,
    ?_, ?_⟩
  · intro e he
    have h2 : fileExtension "game.nes" = some "nes" := by decide
    rw [h2] at he
    have h3 := (Option.some_inj.mp he).symm
    subst h3
    decide
  · exact ⟨[("nes", tmplNes)], tmplNes, by decide, by decide,
      Or.inr ⟨["nes"], "nes", by decide, by decide, by decide⟩⟩
